import Mathlib

/-!
Shallow embedding of the island-generator noise and rendering pipeline
(src/island-generator/utils.js, perlin.js, renderer.js, exports.js).

JavaScript numbers are modelled as real numbers; Math.floor is Int.floor,
Math.round is the floor of x + 0.5 (JavaScript rounds halves toward plus
infinity), Math.sin, Math.cos, Math.sqrt and Math.PI are the exact real
functions and constant.  The global `config` object read by the source
functions is modelled as an explicit `Config` record passed to each
function.
-/

noncomputable section

namespace IslandGen

/-- utils.js `fract`: the fractional part `x - Math.floor(x)`. -/
def fract (x : ℝ) : ℝ := x - ⌊x⌋

/-- utils.js `pseudoRandom`: hash of lattice coordinates and seed. -/
def pseudoRandom (x y seed : ℝ) : ℝ :=
  fract (Real.sin (x * 127.1 + y * 311.7 + seed * 9999) * 43758.5453123)

/-- utils.js `fade`: the quintic smoothstep `t*t*t*(t*(t*6-15)+10)`. -/
def fade (t : ℝ) : ℝ := t * t * t * (t * (t * 6 - 15) + 10)

/-- utils.js `lerp`: linear interpolation `a + t*(b-a)`. -/
def lerp (a b t : ℝ) : ℝ := a + t * (b - a)

/-- JavaScript `Math.round`: floor of `x + 0.5` (halves round up). -/
def jsRound (x : ℝ) : ℝ := ⌊x + 0.5⌋

/-- An RGB color; channel values are JavaScript numbers. -/
structure RGB where
  r : ℝ
  g : ℝ
  b : ℝ

/-- Value of one hex digit, case insensitive, as in the character class
`[a-f\d]` (with `i` flag) of utils.js `hexToRgb`. -/
def hexDigitVal (c : Char) : Option ℕ :=
  if 48 ≤ c.toNat ∧ c.toNat ≤ 57 then some (c.toNat - 48)
  else if 97 ≤ c.toNat ∧ c.toNat ≤ 102 then some (c.toNat - 87)
  else if 65 ≤ c.toNat ∧ c.toNat ≤ 70 then some (c.toNat - 55)
  else none

/-- Parse six hex digits into an RGB record, as utils.js `hexToRgb` does
with `parseInt(..., 16)` on the three captured pairs. -/
def parseHexPairs (r1 r2 g1 g2 b1 b2 : Char) : RGB :=
  match hexDigitVal r1, hexDigitVal r2, hexDigitVal g1, hexDigitVal g2,
        hexDigitVal b1, hexDigitVal b2 with
  | some a, some b, some c, some d, some e, some f =>
      ⟨((a * 16 + b : ℕ) : ℝ), ((c * 16 + d : ℕ) : ℝ), ((e * 16 + f : ℕ) : ℝ)⟩
  | _, _, _, _, _, _ => ⟨0, 0, 0⟩

/-- utils.js `hexToRgb`: the anchored regex accepts an optional `#`
followed by exactly six hex digits; any other string yields `{0,0,0}`. -/
def hexToRgb (hex : String) : RGB :=
  match hex.toList with
  | '#' :: r1 :: r2 :: g1 :: g2 :: b1 :: b2 :: [] => parseHexPairs r1 r2 g1 g2 b1 b2
  | r1 :: r2 :: g1 :: g2 :: b1 :: b2 :: [] => parseHexPairs r1 r2 g1 g2 b1 b2
  | _ => ⟨0, 0, 0⟩

/-- utils.js `interpolateColors`: per-channel lerp of the two parsed
colors, rounded with `Math.round`. -/
def interpolateColors (c1 c2 : String) (t : ℝ) : RGB :=
  let a := hexToRgb c1
  let b := hexToRgb c2
  ⟨jsRound (lerp a.r b.r t), jsRound (lerp a.g b.g t), jsRound (lerp a.b b.b t)⟩

/-- One entry of `config.thresholds`. -/
structure Threshold where
  threshold : ℝ
  color : String

/-- The fields of the global `config` object (config.js) that the core
pipeline reads. -/
structure Config where
  width : ℝ
  height : ℝ
  scale : ℝ
  seed : ℝ
  time : ℝ
  grayscale : Bool
  octaves : Bool
  smoothing : Bool
  shading : Bool
  mask : Bool
  maskShape : String
  maskContrast : ℝ
  thresholds : List Threshold

/-- perlin.js `randomGradient`: unit gradient at angle
`pseudoRandom(ix,iy,seed) * 2 * Math.PI`. -/
def randomGradient (ix iy seed : ℝ) : ℝ × ℝ :=
  let angle := pseudoRandom ix iy seed * 2 * Real.pi
  (Real.cos angle, Real.sin angle)

/-- perlin.js `dotGridGradient`: dot product of the gradient at the grid
point with the displacement from the grid point to the sample point. -/
def dotGridGradient (ix iy x y seed : ℝ) : ℝ :=
  let grad := randomGradient ix iy seed
  (x - ix) * grad.1 + (y - iy) * grad.2

/-- perlin.js `rawPerlin`: single-octave gradient noise. -/
def rawPerlin (x y seed : ℝ) : ℝ :=
  let x0 : ℝ := ⌊x⌋
  let x1 : ℝ := x0 + 1
  let y0 : ℝ := ⌊y⌋
  let y1 : ℝ := y0 + 1
  let sx := x - x0
  let sy := y - y0
  let u := fade sx
  let v := fade sy
  let n00 := dotGridGradient x0 y0 x y seed
  let n10 := dotGridGradient x1 y0 x y seed
  let n01 := dotGridGradient x0 y1 x y seed
  let n11 := dotGridGradient x1 y1 x y seed
  lerp (lerp n00 n10 u) (lerp n01 n11 u) v

/-- State of the octave loop of perlin.js `perlin` after some iterations:
`(total, frequency, amplitude, maxValue)`.  Each iteration adds
`rawPerlin(x*frequency, y*frequency, seed) * amplitude` to the total,
adds `amplitude` to `maxValue`, halves the amplitude and doubles the
frequency. -/
def octLoop (x y seed : ℝ) : ℕ → ℝ × ℝ × ℝ × ℝ
  | 0 => (0, 1, 1, 0)
  | n + 1 =>
      let p := octLoop x y seed n
      (p.1 + rawPerlin (x * p.2.1) (y * p.2.1) seed * p.2.2.1,
       p.2.1 * 2, p.2.2.1 * 0.5, p.2.2.2 + p.2.2.1)

/-- perlin.js `perlin` with an explicit octave count: the accumulated
total divided by the accumulated amplitude `maxValue`. -/
def perlinN (n : ℕ) (x y seed : ℝ) : ℝ :=
  (octLoop x y seed n).1 / (octLoop x y seed n).2.2.2

/-- perlin.js `perlin`: the octave count is the toggle
`config.octaves ? 4 : 1`. -/
def perlin (octaves : Bool) (x y seed : ℝ) : ℝ :=
  perlinN (if octaves then 4 else 1) x y seed

/-- The body of a matching iteration of renderer.js `getColorForValue`
(lines 20-27): when smoothing is on and the matched stop is not the first
one (`prev` holds `thresholds[i-1]`, `none` when `i = 0`), interpolate
with the previous stop at ratio
`(value - prev.threshold) / (t.threshold - prev.threshold)`; otherwise
return the matched stop color. -/
def smoothPick (sm : Bool) (prev : Option Threshold) (t : Threshold) (value : ℝ) : RGB :=
  match sm, prev with
  | true, some p =>
      interpolateColors p.color t.color
        ((value - p.threshold) / (t.threshold - p.threshold))
  | _, _ => hexToRgb t.color

/-- The scan of renderer.js `getColorForValue` (lines 18-31).  The source
iterates over `config.thresholds` with an index `i`; here the list tail
still to be scanned is explicit.  The first stop whose threshold is at
least the value is returned through `smoothPick`; an exhausted scan falls
back to white. -/
def goColor (sm : Bool) (value : ℝ) : Option Threshold → List Threshold → RGB
  | _, [] => hexToRgb "#ffffff"
  | prev, t :: rest =>
      if value ≤ t.threshold then smoothPick sm prev t value
      else goColor sm value (some t) rest

/-- renderer.js `getColorForValue`. -/
def getColorForValue (cfg : Config) (value : ℝ) : RGB :=
  goColor cfg.smoothing value none cfg.thresholds

/-- Instrumented variant of `smoothPick`, following the wording of the
specification about numeric edge cases: the interpolation division is
watched, and a zero denominator (the on-screen effect of a JavaScript
division by zero reaching the pixel color) poisons the result to `none`.
Comparing the instrumented scan with the plain one states that no such
division ever happens. -/
def smoothPickChecked (sm : Bool) (prev : Option Threshold) (t : Threshold)
    (value : ℝ) : Option RGB :=
  match sm, prev with
  | true, some p =>
      if t.threshold - p.threshold = 0 then none
      else
        some (interpolateColors p.color t.color
          ((value - p.threshold) / (t.threshold - p.threshold)))
  | _, _ => some (hexToRgb t.color)

/-- The scan of `goColorChecked`, with `smoothPickChecked` watching the
interpolation division. -/
def goColorChecked (sm : Bool) (value : ℝ) :
    Option Threshold → List Threshold → Option RGB
  | _, [] => some (hexToRgb "#ffffff")
  | prev, t :: rest =>
      if value ≤ t.threshold then smoothPickChecked sm prev t value
      else goColorChecked sm value (some t) rest

/-- `getColorForValue` with the division-by-zero instrumentation. -/
def getColorForValueChecked (cfg : Config) (value : ℝ) : Option RGB :=
  goColorChecked cfg.smoothing value none cfg.thresholds

/-- The circle gradient of renderer.js `applyMask` (lines 49-61):
normalized Euclidean distance from the center, shifted, scaled and
inverted so it is 1 at the center and negative beyond half the
normalizing half-diagonal. -/
def circleGrad (cfg : Config) (x y : ℝ) : ℝ :=
  let cx := cfg.width / 2
  let cy := cfg.height / 2
  let distx := |x - cx|
  let disty := |y - cy|
  let dist := Real.sqrt (distx * distx + disty * disty)
  let maxGrad := Real.sqrt (cx * cx + cy * cy)
  let g := -((dist / maxGrad - 0.5) * 2.0)
  g

/-- The square gradient of renderer.js `applyMask` (lines 80-84):
Chebyshev distance with per-axis normalization, clamped below at 0. -/
def squareGrad (cfg : Config) (x y : ℝ) : ℝ :=
  let cx := cfg.width / 2
  let cy := cfg.height / 2
  let dx := |x - cx| / cx
  let dy := |y - cy| / cy
  max 0 (1 - max dx dy)

/-- The hexagon gradient of renderer.js `applyMask` (lines 97-103). -/
def hexGrad (cfg : Config) (x y : ℝ) : ℝ :=
  let cx := cfg.width / 2
  let cy := cfg.height / 2
  let dx := |x - cx| / cx
  let dy := |y - cy| / cy
  let qx := |dx|
  let qy := |dy|
  max 0 (1 - max qx (qy * 0.866 + qx * 0.5))

/-- The shared tail of every enabled branch of renderer.js `applyMask`:
if the gradient is positive, multiply the value by it, apply the contrast
factor only when that product is positive, and clamp to [0,1]; otherwise
return 0. -/
def maskStep (value contrast g : ℝ) : ℝ :=
  if 0 < g then
    let maskedValue := value * g
    let maskedValue := if 0 < maskedValue then maskedValue * contrast else maskedValue
    max 0 (min 1 maskedValue)
  else 0

/-- renderer.js `applyMask`. -/
def applyMask (cfg : Config) (x y value : ℝ) : ℝ :=
  if cfg.mask = false then value
  else if cfg.maskShape = "circle" then
    maskStep value cfg.maskContrast (circleGrad cfg x y)
  else if cfg.maskShape = "square" then
    maskStep value (cfg.maskContrast * 0.75) (squareGrad cfg x y)
  else if cfg.maskShape = "hexagon" then
    maskStep value (cfg.maskContrast * 0.75) (hexGrad cfg x y)
  else value

/-- The per-pixel noise value of renderer.js `draw` (lines 135-142):
noise coordinates `(x/scale, y/scale + time)`, fractal noise remapped by
`(v+1)/2`, then the mask. -/
def drawPixelValue (cfg : Config) (x y : ℝ) : ℝ :=
  applyMask cfg x y
    ((perlin cfg.octaves (x / cfg.scale) (y / cfg.scale + cfg.time) cfg.seed + 1) / 2)

/-- The per-pixel color of renderer.js `draw` (lines 134-159): the masked
value, grayscale or threshold color selection, then the optional shading
pass.  Note the offset sample of the shading pass is
`perlin(nx + 0.01, ny + 0.01, seed)`: it does not add `config.time` to
the y coordinate, unlike the main sample. -/
def drawPixel (cfg : Config) (x y : ℝ) : RGB :=
  let value := drawPixelValue cfg x y
  let rgb :=
    if cfg.grayscale then RGB.mk (value * 255) (value * 255) (value * 255)
    else getColorForValue cfg value
  if cfg.shading then
    let next := (perlin cfg.octaves (x / cfg.scale + 0.01) (y / cfg.scale + 0.01) cfg.seed + 1) / 2
    let shade := value - next
    ⟨min 255 (max 0 (rgb.r + shade * 100)),
     min 255 (max 0 (rgb.g + shade * 100)),
     min 255 (max 0 (rgb.b + shade * 100))⟩
  else rgb

/-- renderer.js `draw`: the row-major pixel buffer (alpha is the constant
255 and is omitted).  A JavaScript loop `for (y = 0; y < h; y++)` over
integers visits exactly the naturals below the ceiling of `h`. -/
def draw (cfg : Config) : List RGB :=
  (List.range ⌈cfg.height⌉₊).flatMap fun (y : ℕ) =>
    (List.range ⌈cfg.width⌉₊).map fun (x : ℕ) => drawPixel cfg (x : ℝ) (y : ℝ)

/-- The per-pixel value of exports.js `exportMap` (lines 33-36), before
the `toFixed(3)` serialization. -/
def exportMapValue (cfg : Config) (x y : ℝ) : ℝ :=
  applyMask cfg x y
    ((perlin cfg.octaves (x / cfg.scale) (y / cfg.scale + cfg.time) cfg.seed + 1) / 2)

/-- A base configuration with the scalar defaults of config.js (the
preset threshold list is irrelevant to the concrete instances below and
left empty). -/
def baseCfg : Config :=
  { width := 400, height := 400, scale := 50, seed := 0, time := 0,
    grayscale := false, octaves := true, smoothing := true, shading := true,
    mask := true, maskShape := "circle", maskContrast := 4, thresholds := [] }

/-- A configuration with a nonzero animation time, one octave, grayscale
and shading on, used to exhibit the shading offset sample. -/
def cfgC2 : Config :=
  { baseCfg with
    scale := 1, time := 1/2, octaves := false,
    grayscale := true, shading := true, mask := false }

/-- The single-stop list of the fallback example: `[{0.5, #ff0000}]`. -/
def cfgC3 : Config :=
  { baseCfg with smoothing := true, thresholds := [⟨0.5, "#ff0000"⟩] }

/-- The two-stop list of the midpoint example:
`[{0.0, #000000}, {1.0, #ffffff}]` with smoothing on. -/
def cfgC5 : Config :=
  { baseCfg with
    smoothing := true,
    thresholds := [⟨0, "#000000"⟩, ⟨1, "#ffffff"⟩] }

/-- A small circle-mask configuration (2 by 2 canvas, contrast 4). -/
def cfgC6 : Config :=
  { baseCfg with
    width := 2, height := 2, mask := true, maskShape := "circle",
    maskContrast := 4 }

/-- A configuration with the mask disabled. -/
def cfgC7off : Config := { baseCfg with mask := false }

/-- A small square-mask configuration. -/
def cfgC7s : Config := { cfgC6 with maskShape := "square" }

/-- A small hexagon-mask configuration. -/
def cfgC7h : Config := { cfgC6 with maskShape := "hexagon" }

/-- An invalid configuration in the sense of the specification: its
color-stop list is empty.  Everything else is benign: 1 by 1 canvas,
scale 1, mask, grayscale, smoothing and shading off. -/
def cfgC9 : Config :=
  { baseCfg with
    width := 1, height := 1, scale := 1, octaves := false,
    grayscale := false, smoothing := false, shading := false, mask := false,
    thresholds := [] }

/-! Helper lemmas. -/

theorem hexToRgb_white : hexToRgb "#ffffff" = RGB.mk 255 255 255 := by
  rw [show hexToRgb "#ffffff" = RGB.mk ((255:ℕ):ℝ) ((255:ℕ):ℝ) ((255:ℕ):ℝ) from rfl]
  norm_num

theorem hexToRgb_black : hexToRgb "#000000" = RGB.mk 0 0 0 := by
  rw [show hexToRgb "#000000" = RGB.mk ((0:ℕ):ℝ) ((0:ℕ):ℝ) ((0:ℕ):ℝ) from rfl]
  norm_num

/-- A scan in which every stop threshold is below the value falls through
to white. -/
theorem goColor_all_lt (sm : Bool) (v : ℝ) :
    ∀ (l : List Threshold) (prev : Option Threshold),
      (∀ s ∈ l, s.threshold < v) → goColor sm v prev l = RGB.mk 255 255 255
  | [], _, _ => hexToRgb_white
  | t :: rest, prev, h => by
      have ht : ¬ v ≤ t.threshold := not_le.mpr (h t (List.mem_cons_self t rest))
      rw [goColor, if_neg ht]
      exact goColor_all_lt sm v rest (some t) fun s hs => h s (List.mem_cons_of_mem _ hs)

/-- Scanning past a prefix whose thresholds are all below the value only
updates the carried previous stop. -/
theorem goColor_skip (sm : Bool) (v : ℝ) :
    ∀ (l₁ : List Threshold) (prev : Option Threshold) (rest : List Threshold),
      (∀ s ∈ l₁, s.threshold < v) →
      goColor sm v prev (l₁ ++ rest) = goColor sm v (l₁.getLast?.or prev) rest
  | [], _, _, _ => by simp
  | t :: l₁, prev, rest, h => by
      have ht : ¬ v ≤ t.threshold := not_le.mpr (h t (List.mem_cons_self t l₁))
      rw [List.cons_append, goColor, if_neg ht,
        goColor_skip sm v l₁ (some t) rest fun s hs => h s (List.mem_cons_of_mem _ hs)]
      cases hl : l₁.getLast? with
      | none =>
          cases l₁ with
          | nil => simp
          | cons b l₂ => simp [List.getLast?_cons] at hl
      | some p =>
          have : (t :: l₁).getLast? = some p := by
            cases l₁ with
            | nil => simp at hl
            | cons b l₂ => rwa [List.getLast?_cons_cons]
          rw [this]
          simp

/-- The instrumented scan never hits a zero denominator: the scan only
reaches a stop after all earlier thresholds tested strictly below the
value, so the denominator of the interpolation ratio is strictly
positive. -/
theorem goColorChecked_eq (sm : Bool) (v : ℝ) :
    ∀ (l : List Threshold) (prev : Option Threshold),
      (∀ p, prev = some p → p.threshold < v) →
      goColorChecked sm v prev l = some (goColor sm v prev l)
  | [], _, _ => rfl
  | t :: rest, prev, h => by
      by_cases hle : v ≤ t.threshold
      · rw [goColorChecked, goColor, if_pos hle, if_pos hle]
        cases sm with
        | false => cases prev <;> rfl
        | true =>
            cases prev with
            | none => rfl
            | some p =>
                have hp : p.threshold < v := h p rfl
                have hden : ¬ (t.threshold - p.threshold = 0) := by
                  have hlt : p.threshold < t.threshold := lt_of_lt_of_le hp hle
                  intro hz
                  nlinarith
                simp only [smoothPickChecked, smoothPick, if_neg hden]
      · rw [goColorChecked, goColor, if_neg hle, if_neg hle]
        exact goColorChecked_eq sm v rest (some t)
          fun p hp => by cases hp; exact not_le.mp hle

/-- Evaluation of the color scan on the two-stop midpoint example: the
interpolation ratio is one half, each channel lerp gives 127.5, and
`Math.round` takes halves up, to 128. -/
theorem getColor_cfgC5 : getColorForValue cfgC5 (1/2) = RGB.mk 128 128 128 := by
  show goColor cfgC5.smoothing (1/2) none cfgC5.thresholds = RGB.mk 128 128 128
  rw [show cfgC5.thresholds = [⟨0, "#000000"⟩, ⟨1, "#ffffff"⟩] from rfl,
    show cfgC5.smoothing = true from rfl]
  rw [goColor, if_neg (by norm_num), goColor, if_pos (by norm_num)]
  show interpolateColors "#000000" "#ffffff" ((1/2 - 0) / (1 - 0)) = RGB.mk 128 128 128
  rw [interpolateColors, hexToRgb_black, hexToRgb_white]
  show RGB.mk (jsRound (lerp 0 255 ((1/2 - 0) / (1 - 0))))
      (jsRound (lerp 0 255 ((1/2 - 0) / (1 - 0))))
      (jsRound (lerp 0 255 ((1/2 - 0) / (1 - 0)))) = RGB.mk 128 128 128
  have : jsRound (lerp 0 255 ((1/2 - 0) / (1 - 0))) = 128 := by
    rw [jsRound, lerp,
      show ((0:ℝ) + (1/2 - 0) / (1 - 0) * (255 - 0) + 0.5) = ((128 : ℤ) : ℝ) by norm_num,
      Int.floor_intCast]
    norm_num
  rw [this]

/-- A pixel drawn with an empty threshold list, grayscale off and shading
off gets the white fallback color, whatever the noise value is. -/
theorem drawPixel_empty_thresholds (cfg : Config) (x y : ℝ)
    (hth : cfg.thresholds = []) (hgs : cfg.grayscale = false)
    (hsh : cfg.shading = false) : drawPixel cfg x y = RGB.mk 255 255 255 := by
  rw [drawPixel, hgs, hsh]
  show getColorForValue cfg (drawPixelValue cfg x y) = RGB.mk 255 255 255
  rw [getColorForValue, hth]
  exact hexToRgb_white

/-! Claim theorems. -/

/-- C3: the color mapper scans the stops in list order and returns the
color of the first stop whose threshold is at least the value
(interpolated with the previous stop when smoothing is on and the match
is not the first stop); when no stop threshold reaches the value it falls
back to white; in particular on the single stop list `[{0.5, #ff0000}]`
the value 0.9 yields white `{255,255,255}`. -/
theorem C3_color_first_match :
    (∀ (cfg : Config) (value : ℝ),
      ((∀ s ∈ cfg.thresholds, s.threshold < value) →
        getColorForValue cfg value = RGB.mk 255 255 255) ∧
      (∀ (l₁ : List Threshold) (t : Threshold) (l₂ : List Threshold),
        cfg.thresholds = l₁ ++ t :: l₂ →
        (∀ s ∈ l₁, s.threshold < value) →
        value ≤ t.threshold →
        getColorForValue cfg value = smoothPick cfg.smoothing l₁.getLast? t value)) ∧
    getColorForValue cfgC3 (9/10) = RGB.mk 255 255 255 := by
  constructor
  · intro cfg value
    constructor
    · intro h
      exact goColor_all_lt cfg.smoothing value cfg.thresholds none h
    · intro l₁ t l₂ hsplit hlt hle
      rw [getColorForValue, hsplit, goColor_skip cfg.smoothing value l₁ none (t :: l₂) hlt,
        Option.or_none, goColor, if_pos hle]
  · exact goColor_all_lt cfgC3.smoothing (9/10) cfgC3.thresholds none
      (by
        intro s hs
        rw [show cfgC3.thresholds = [⟨0.5, "#ff0000"⟩] from rfl] at hs
        rw [List.mem_singleton] at hs
        rw [hs]
        norm_num)

/-- Witness for C3 at concrete inputs: the fallback example and a
first-match with interpolation on the two-stop list. -/
theorem C3_color_first_match_witness :
    getColorForValue cfgC3 (9/10) = RGB.mk 255 255 255 ∧
    getColorForValue cfgC5 (1/2) =
      interpolateColors "#000000" "#ffffff" ((1/2 - 0) / (1 - 0)) := by
  constructor
  · exact C3_color_first_match.2
  · have h := (C3_color_first_match.1 cfgC5 (1/2)).2 [⟨0, "#000000"⟩] ⟨1, "#ffffff"⟩ []
      rfl
      (by
        intro s hs
        rw [List.mem_singleton] at hs
        rw [hs]
        norm_num)
      (by norm_num)
    exact h.trans rfl

/-- C4: no division by zero from equal adjacent thresholds can reach a
pixel color.  The instrumented scan, which poisons its result as soon as
the smoothing interpolation would divide by a zero threshold difference,
agrees with the plain scan on any value, any stop list and either
smoothing mode, because the interpolation branch only runs when the
previous threshold tested strictly below the value and the matched one at
least equal to it, so the denominator is strictly positive: the guard is
satisfied vacuously and no NaN propagates into a returned pixel color. -/
theorem C4_no_divide_by_zero :
    ∀ (cfg : Config) (value : ℝ),
      getColorForValueChecked cfg value = some (getColorForValue cfg value) := by
  intro cfg value
  exact goColorChecked_eq cfg.smoothing value cfg.thresholds none (by intro p hp; cases hp)

/-- C5 counterexample: on the stop list `[{0.0,#000000},{1.0,#ffffff}]`
with smoothing on, the color for value 0.5 is not `{127,127,127}` (each
channel lerp gives 127.5, and JavaScript Math.round rounds halves up). -/
theorem C5_midpoint_not_127 : getColorForValue cfgC5 (1/2) ≠ RGB.mk 127 127 127 := by
  rw [getColor_cfgC5]
  intro h
  have := congrArg RGB.r h
  norm_num at this

/-- C5 amended: on the stop list `[{0.0,#000000},{1.0,#ffffff}]` with
smoothing on, the color for value 0.5 is the half-up rounded midpoint
`{128,128,128}` on every channel. -/
theorem C5_midpoint_128 : getColorForValue cfgC5 (1/2) = RGB.mk 128 128 128 :=
  getColor_cfgC5

/-- C8: for every pixel and configuration, the per-pixel value of the
raw-grid export path of exports.js (noise at `(x/scale, y/scale+time)`
with the configured seed, remapped by `(v+1)/2`, then masked) is the
value the renderer.js pixel loop computes before color selection and
shading. -/
theorem C8_export_matches_draw :
    ∀ (cfg : Config) (x y : ℝ), exportMapValue cfg x y = drawPixelValue cfg x y :=
  fun _ _ _ => rfl

/-- C9 counterexample: a render call on an invalid configuration (empty
color-stop list) does not reject; it produces an ordinary buffer, here a
single white pixel. -/
theorem C9_invalid_config_renders : draw cfgC9 = [RGB.mk 255 255 255] := by
  have hh : ⌈cfgC9.height⌉₊ = 1 := by
    rw [show cfgC9.height = 1 from rfl]
    norm_num
  have hw : ⌈cfgC9.width⌉₊ = 1 := by
    rw [show cfgC9.width = 1 from rfl]
    norm_num
  rw [draw, hh, hw, show List.range 1 = [0] from rfl]
  simp only [List.flatMap_cons, List.flatMap_nil, List.map_cons,
    List.map_nil, List.append_nil]
  rw [drawPixel_empty_thresholds cfgC9 _ _ rfl rfl rfl]

/-- C9 amended: `draw` performs no configuration validation; an invalid
configuration flows through the pipeline, and in particular an empty
color-stop list silently yields the white fallback color for every pixel
(with grayscale and shading off) instead of a precondition failure. -/
theorem C9_no_validation :
    ∀ (cfg : Config) (x y : ℝ),
      cfg.thresholds = [] → cfg.grayscale = false → cfg.shading = false →
      drawPixel cfg x y = RGB.mk 255 255 255 :=
  fun cfg x y hth hgs hsh => drawPixel_empty_thresholds cfg x y hth hgs hsh

/-- Witness for C9 at a concrete invalid configuration. -/
theorem C9_no_validation_witness : drawPixel cfgC9 0 0 = RGB.mk 255 255 255 :=
  C9_no_validation cfgC9 0 0 rfl rfl rfl

/-- The fade polynomial is nonnegative on nonnegative inputs. -/
theorem fade_nonneg {t : ℝ} (h0 : 0 ≤ t) : 0 ≤ fade t := by
  unfold fade
  have h10 : (0:ℝ) ≤ t * (t * 6 - 15) + 10 := by nlinarith [sq_nonneg (4 * t - 5)]
  exact mul_nonneg (mul_nonneg (mul_nonneg h0 h0) h0) h10

/-- The fade polynomial stays below 1 on the unit interval. -/
theorem fade_le_one {t : ℝ} (h0 : 0 ≤ t) (h1 : t ≤ 1) : fade t ≤ 1 := by
  unfold fade
  nlinarith [mul_nonneg (mul_nonneg (mul_nonneg
    (by linarith : (0:ℝ) ≤ 1 - t) (by linarith : (0:ℝ) ≤ 1 - t))
    (by linarith : (0:ℝ) ≤ 1 - t))
    (by nlinarith [sq_nonneg t] : (0:ℝ) ≤ 6 * t^2 + 3 * t + 1)]

/-- Key seam inequality: mixing the offsets `s` and `1 - s` with the
faded weight never exceeds one half.  This is what keeps each axis
contribution of the corner interpolation bounded. -/
theorem fade_mix_le_half {s : ℝ} (h0 : 0 ≤ s) (h1 : s ≤ 1) :
    (1 - fade s) * s + fade s * (1 - s) ≤ 1/2 := by
  unfold fade
  nlinarith [sq_nonneg ((1 - 2*s) * (s * (s - 1))),
    mul_nonneg (sq_nonneg (1 - 2*s)) (mul_nonneg h0 (by linarith : (0:ℝ) ≤ 1 - s)),
    sq_nonneg (1 - 2*s)]

/-- The corner dot product is bounded by the 1-norm of the displacement,
because the gradient components are a cosine and a sine. -/
theorem abs_dotGridGradient_le (ix iy x y seed : ℝ) :
    |dotGridGradient ix iy x y seed| ≤ |x - ix| + |y - iy| := by
  have hc : |(randomGradient ix iy seed).1| ≤ 1 := Real.abs_cos_le_one _
  have hs : |(randomGradient ix iy seed).2| ≤ 1 := Real.abs_sin_le_one _
  calc |dotGridGradient ix iy x y seed|
      = |(x - ix) * (randomGradient ix iy seed).1 +
          (y - iy) * (randomGradient ix iy seed).2| := rfl
    _ ≤ |(x - ix) * (randomGradient ix iy seed).1| +
          |(y - iy) * (randomGradient ix iy seed).2| := abs_add _ _
    _ = |x - ix| * |(randomGradient ix iy seed).1| +
          |y - iy| * |(randomGradient ix iy seed).2| := by rw [abs_mul, abs_mul]
    _ ≤ |x - ix| * 1 + |y - iy| * 1 :=
        add_le_add (mul_le_mul_of_nonneg_left hc (abs_nonneg _))
          (mul_le_mul_of_nonneg_left hs (abs_nonneg _))
    _ = |x - ix| + |y - iy| := by ring

/-- Interpolation with a weight in the unit interval respects bounds on
the endpoints. -/
theorem abs_lerp_le {a b t A B : ℝ} (h0 : 0 ≤ t) (h1 : t ≤ 1)
    (ha : |a| ≤ A) (hb : |b| ≤ B) : |lerp a b t| ≤ (1 - t) * A + t * B := by
  have he : lerp a b t = (1 - t) * a + t * b := by unfold lerp; ring
  rw [he]
  calc |(1 - t) * a + t * b| ≤ |(1 - t) * a| + |t * b| := abs_add _ _
    _ = (1 - t) * |a| + t * |b| := by
        rw [abs_mul, abs_mul, abs_of_nonneg (by linarith : (0:ℝ) ≤ 1 - t),
          abs_of_nonneg h0]
    _ ≤ (1 - t) * A + t * B :=
        add_le_add (mul_le_mul_of_nonneg_left ha (by linarith))
          (mul_le_mul_of_nonneg_left hb h0)

/-- Single-octave noise is globally bounded by 1 in absolute value. -/
theorem abs_rawPerlin_le_one (x y seed : ℝ) : |rawPerlin x y seed| ≤ 1 := by
  have hsx0 : (0:ℝ) ≤ x - ⌊x⌋ := sub_nonneg.mpr (Int.floor_le x)
  have hsx1 : x - ⌊x⌋ ≤ 1 := by have := Int.lt_floor_add_one x; linarith
  have hsy0 : (0:ℝ) ≤ y - ⌊y⌋ := sub_nonneg.mpr (Int.floor_le y)
  have hsy1 : y - ⌊y⌋ ≤ 1 := by have := Int.lt_floor_add_one y; linarith
  have hu0 : 0 ≤ fade (x - ⌊x⌋) := fade_nonneg hsx0
  have hu1 : fade (x - ⌊x⌋) ≤ 1 := fade_le_one hsx0 hsx1
  have hv0 : 0 ≤ fade (y - ⌊y⌋) := fade_nonneg hsy0
  have hv1 : fade (y - ⌊y⌋) ≤ 1 := fade_le_one hsy0 hsy1
  have h00 : |dotGridGradient (⌊x⌋:ℝ) (⌊y⌋:ℝ) x y seed| ≤
      (x - ⌊x⌋) + (y - ⌊y⌋) := by
    have h := abs_dotGridGradient_le (⌊x⌋:ℝ) (⌊y⌋:ℝ) x y seed
    rwa [abs_of_nonneg hsx0, abs_of_nonneg hsy0] at h
  have h10 : |dotGridGradient ((⌊x⌋:ℝ) + 1) (⌊y⌋:ℝ) x y seed| ≤
      (1 - (x - ⌊x⌋)) + (y - ⌊y⌋) := by
    have h := abs_dotGridGradient_le ((⌊x⌋:ℝ) + 1) (⌊y⌋:ℝ) x y seed
    have e1 : |x - ((⌊x⌋:ℝ) + 1)| = 1 - (x - ⌊x⌋) := by
      rw [abs_of_nonpos (by linarith)]; ring
    rwa [e1, abs_of_nonneg hsy0] at h
  have h01 : |dotGridGradient (⌊x⌋:ℝ) ((⌊y⌋:ℝ) + 1) x y seed| ≤
      (x - ⌊x⌋) + (1 - (y - ⌊y⌋)) := by
    have h := abs_dotGridGradient_le (⌊x⌋:ℝ) ((⌊y⌋:ℝ) + 1) x y seed
    have e1 : |y - ((⌊y⌋:ℝ) + 1)| = 1 - (y - ⌊y⌋) := by
      rw [abs_of_nonpos (by linarith)]; ring
    rwa [abs_of_nonneg hsx0, e1] at h
  have h11 : |dotGridGradient ((⌊x⌋:ℝ) + 1) ((⌊y⌋:ℝ) + 1) x y seed| ≤
      (1 - (x - ⌊x⌋)) + (1 - (y - ⌊y⌋)) := by
    have h := abs_dotGridGradient_le ((⌊x⌋:ℝ) + 1) ((⌊y⌋:ℝ) + 1) x y seed
    have e1 : |x - ((⌊x⌋:ℝ) + 1)| = 1 - (x - ⌊x⌋) := by
      rw [abs_of_nonpos (by linarith)]; ring
    have e2 : |y - ((⌊y⌋:ℝ) + 1)| = 1 - (y - ⌊y⌋) := by
      rw [abs_of_nonpos (by linarith)]; ring
    rwa [e1, e2] at h
  have hA := abs_lerp_le hu0 hu1 h00 h10
  have hB := abs_lerp_le hu0 hu1 h01 h11
  have hF := abs_lerp_le hv0 hv1 hA hB
  have hX := fade_mix_le_half hsx0 hsx1
  have hY := fade_mix_le_half hsy0 hsy1
  have hr : rawPerlin x y seed =
      lerp (lerp (dotGridGradient (⌊x⌋:ℝ) (⌊y⌋:ℝ) x y seed)
                 (dotGridGradient ((⌊x⌋:ℝ) + 1) (⌊y⌋:ℝ) x y seed) (fade (x - ⌊x⌋)))
           (lerp (dotGridGradient (⌊x⌋:ℝ) ((⌊y⌋:ℝ) + 1) x y seed)
                 (dotGridGradient ((⌊x⌋:ℝ) + 1) ((⌊y⌋:ℝ) + 1) x y seed) (fade (x - ⌊x⌋)))
           (fade (y - ⌊y⌋)) := rfl
  have hexp : (1 - fade (y - ⌊y⌋)) *
        ((1 - fade (x - ⌊x⌋)) * ((x - ⌊x⌋) + (y - ⌊y⌋)) +
          fade (x - ⌊x⌋) * ((1 - (x - ⌊x⌋)) + (y - ⌊y⌋))) +
      fade (y - ⌊y⌋) *
        ((1 - fade (x - ⌊x⌋)) * ((x - ⌊x⌋) + (1 - (y - ⌊y⌋))) +
          fade (x - ⌊x⌋) * ((1 - (x - ⌊x⌋)) + (1 - (y - ⌊y⌋)))) =
      ((1 - fade (x - ⌊x⌋)) * (x - ⌊x⌋) + fade (x - ⌊x⌋) * (1 - (x - ⌊x⌋))) +
      ((1 - fade (y - ⌊y⌋)) * (y - ⌊y⌋) + fade (y - ⌊y⌋) * (1 - (y - ⌊y⌋))) := by
    ring
  rw [hr]
  linarith [hF, hX, hY, hexp]

/-- Invariant of the octave loop: the amplitude stays positive, the total
is bounded by the accumulated amplitude, and from the first iteration on
the accumulated amplitude is at least 1. -/
theorem octLoop_inv (x y seed : ℝ) :
    ∀ n : ℕ, 0 < (octLoop x y seed n).2.2.1 ∧
      |(octLoop x y seed n).1| ≤ (octLoop x y seed n).2.2.2 ∧
      1 ≤ (octLoop x y seed n).2.2.2 + (octLoop x y seed n).2.2.1 ∧
      (1 ≤ n → 1 ≤ (octLoop x y seed n).2.2.2)
  | 0 => by
      refine ⟨by norm_num [octLoop], by simp [octLoop], by norm_num [octLoop], ?_⟩
      intro h
      exact absurd h (by norm_num)
  | n + 1 => by
      obtain ⟨ha, ht, hm, _⟩ := octLoop_inv x y seed n
      have hraw := abs_rawPerlin_le_one (x * (octLoop x y seed n).2.1)
        (y * (octLoop x y seed n).2.1) seed
      simp only [octLoop]
      refine ⟨by positivity, ?_, by nlinarith, fun _ => by nlinarith⟩
      calc |(octLoop x y seed n).1 +
            rawPerlin (x * (octLoop x y seed n).2.1) (y * (octLoop x y seed n).2.1) seed *
              (octLoop x y seed n).2.2.1|
          ≤ |(octLoop x y seed n).1| +
            |rawPerlin (x * (octLoop x y seed n).2.1) (y * (octLoop x y seed n).2.1) seed *
              (octLoop x y seed n).2.2.1| := abs_add _ _
        _ ≤ (octLoop x y seed n).2.2.2 + (octLoop x y seed n).2.2.1 := by
            have habs : |rawPerlin (x * (octLoop x y seed n).2.1)
                (y * (octLoop x y seed n).2.1) seed *
                (octLoop x y seed n).2.2.1| ≤ (octLoop x y seed n).2.2.1 := by
              rw [abs_mul, abs_of_pos ha]
              nlinarith
            linarith

/-- The normalized octave sum lies in the closed interval [-1, 1] for
every positive octave count. -/
theorem perlinN_bounds (n : ℕ) (hn : 1 ≤ n) (x y seed : ℝ) :
    -1 ≤ perlinN n x y seed ∧ perlinN n x y seed ≤ 1 := by
  obtain ⟨ha, ht, hm, hmax⟩ := octLoop_inv x y seed n
  have hm1 : 1 ≤ (octLoop x y seed n).2.2.2 := hmax hn
  have hmpos : 0 < (octLoop x y seed n).2.2.2 := by linarith
  have habs : |perlinN n x y seed| ≤ 1 := by
    rw [perlinN, abs_div, abs_of_pos hmpos]
    exact div_le_one_of_le₀ ht (le_of_lt hmpos)
  exact abs_le.mp habs

/-- C1: for every input point, every seed and every octave count from 1
up (the toggle of the code selects 1 or 4), the normalized octave sum
total/maxValue lies in [-1, 1], so the fractal noise remapped by
`(v+1)/2` lies in [0, 1]. -/
theorem C1_fractal_range :
    ∀ (n : ℕ), 1 ≤ n → ∀ (x y seed : ℝ),
      (-1 ≤ perlinN n x y seed ∧ perlinN n x y seed ≤ 1) ∧
      (0 ≤ (perlinN n x y seed + 1) / 2 ∧ (perlinN n x y seed + 1) / 2 ≤ 1) ∧
      ∀ (b : Bool), 0 ≤ (perlin b x y seed + 1) / 2 ∧ (perlin b x y seed + 1) / 2 ≤ 1 := by
  intro n hn x y seed
  obtain ⟨hlo, hhi⟩ := perlinN_bounds n hn x y seed
  refine ⟨⟨hlo, hhi⟩, ⟨by linarith, by linarith⟩, ?_⟩
  intro b
  cases b with
  | false =>
      obtain ⟨hl, hh⟩ := perlinN_bounds 1 (by norm_num) x y seed
      have e : perlin false x y seed = perlinN 1 x y seed := rfl
      rw [e]
      exact ⟨by linarith, by linarith⟩
  | true =>
      obtain ⟨hl, hh⟩ := perlinN_bounds 4 (by norm_num) x y seed
      have e : perlin true x y seed = perlinN 4 x y seed := rfl
      rw [e]
      exact ⟨by linarith, by linarith⟩

/-- Witness for C1 at a concrete input. -/
theorem C1_fractal_range_witness :
    0 ≤ (perlin false 0 0 0 + 1) / 2 ∧ (perlin false 0 0 0 + 1) / 2 ≤ 1 :=
  (C1_fractal_range 1 (by norm_num) 0 0 0).2.2 false

/-- A nonpositive gradient masks the pixel to 0. -/
theorem maskStep_of_nonpos (value contrast : ℝ) {g : ℝ} (hg : ¬ 0 < g) :
    maskStep value contrast g = 0 := by
  rw [maskStep, if_neg hg]

/-- When the pre-contrast product `value*g` is positive, the enabled mask
multiplies it by the contrast factor and clamps to [0,1]. -/
theorem maskStep_of_pos_prod (value : ℝ) (contrast : ℝ) {g : ℝ}
    (hv : 0 ≤ value) (hm : 0 < value * g) :
    maskStep value contrast g = max 0 (min 1 (value * g * contrast)) := by
  have hg : 0 < g := by
    rcases lt_or_le 0 g with h | h
    · exact h
    · exfalso; nlinarith
  rw [maskStep, if_pos hg]
  show max 0 (min 1 (if 0 < value * g then value * g * contrast else value * g)) =
    max 0 (min 1 (value * g * contrast))
  rw [if_pos hm]

/-- The masked value is monotone in the gradient, for a nonnegative value
and contrast. -/
theorem maskStep_mono {value contrast : ℝ} (hv : 0 ≤ value) (hc : 0 ≤ contrast)
    {g1 g2 : ℝ} (h : g2 ≤ g1) :
    maskStep value contrast g2 ≤ maskStep value contrast g1 := by
  by_cases h2 : 0 < g2
  · have h1 : 0 < g1 := lt_of_lt_of_le h2 h
    rcases eq_or_lt_of_le hv with hv0 | hvpos
    · rw [maskStep, if_pos h2, maskStep, if_pos h1, ← hv0]
      simp
    · have hm2 : 0 < value * g2 := mul_pos hvpos h2
      have hm1 : 0 < value * g1 := mul_pos hvpos h1
      rw [maskStep_of_pos_prod value contrast hv hm1,
        maskStep_of_pos_prod value contrast hv hm2]
      have hle : value * g2 * contrast ≤ value * g1 * contrast := by
        nlinarith [mul_nonneg (mul_nonneg hv (sub_nonneg.mpr h)) hc]
      exact max_le_max (le_refl 0) (min_le_min (le_refl 1) hle)
  · rw [maskStep_of_nonpos value contrast h2]
    by_cases h1 : 0 < g1
    · rw [maskStep, if_pos h1]
      show (0:ℝ) ≤ max 0 (min 1 (if 0 < value * g1 then value * g1 * contrast else value * g1))
      exact le_max_left 0 _
    · rw [maskStep_of_nonpos value contrast h1]

/-- The circle gradient written through squares: 1 minus twice the
normalized distance from the center. -/
theorem circleGrad_eq (cfg : Config) (x y : ℝ) :
    circleGrad cfg x y = 1 - 2 *
      (Real.sqrt ((x - cfg.width/2)^2 + (y - cfg.height/2)^2) /
       Real.sqrt ((cfg.width/2)^2 + (cfg.height/2)^2)) := by
  simp only [circleGrad]
  rw [show |x - cfg.width / 2| * |x - cfg.width / 2| = (x - cfg.width / 2)^2 from by
      rw [abs_mul_abs_self, pow_two],
    show |y - cfg.height / 2| * |y - cfg.height / 2| = (y - cfg.height / 2)^2 from by
      rw [abs_mul_abs_self, pow_two],
    show cfg.width / 2 * (cfg.width / 2) = (cfg.width / 2)^2 from (pow_two _).symm,
    show cfg.height / 2 * (cfg.height / 2) = (cfg.height / 2)^2 from (pow_two _).symm]
  ring

/-- A disabled mask is the identity. -/
theorem applyMask_disabled (cfg : Config) (x y v : ℝ) (h : cfg.mask = false) :
    applyMask cfg x y v = v := by
  rw [applyMask, if_pos h]

/-- The circle branch of the enabled mask. -/
theorem applyMask_circle (cfg : Config) (x y v : ℝ) (hm : cfg.mask = true)
    (hs : cfg.maskShape = "circle") :
    applyMask cfg x y v = maskStep v cfg.maskContrast (circleGrad cfg x y) := by
  rw [applyMask, if_neg (show ¬ cfg.mask = false by rw [hm]; exact by decide),
    if_pos hs]

/-- The square branch of the enabled mask: the contrast is scaled by
0.75. -/
theorem applyMask_square (cfg : Config) (x y v : ℝ) (hm : cfg.mask = true)
    (hs : cfg.maskShape = "square") :
    applyMask cfg x y v = maskStep v (cfg.maskContrast * 0.75) (squareGrad cfg x y) := by
  rw [applyMask, if_neg (show ¬ cfg.mask = false by rw [hm]; exact by decide),
    if_neg (show ¬ cfg.maskShape = "circle" by rw [hs]; exact by decide),
    if_pos hs]

/-- The hexagon branch of the enabled mask: the contrast is scaled by
0.75. -/
theorem applyMask_hexagon (cfg : Config) (x y v : ℝ) (hm : cfg.mask = true)
    (hs : cfg.maskShape = "hexagon") :
    applyMask cfg x y v = maskStep v (cfg.maskContrast * 0.75) (hexGrad cfg x y) := by
  rw [applyMask, if_neg (show ¬ cfg.mask = false by rw [hm]; exact by decide),
    if_neg (show ¬ cfg.maskShape = "circle" by rw [hs]; exact by decide),
    if_neg (show ¬ cfg.maskShape = "square" by rw [hs]; exact by decide),
    if_pos hs]

/-- C6: for the enabled circle mask on a positive canvas, the masked
result is non-increasing in the distance of the pixel from the image
center (for a fixed value in [0,1] and nonnegative contrast), and every
pixel at distance at least the normalizing half-diagonal from the center
is masked to 0 regardless of the underlying noise value. -/
theorem C6_circle_mask :
    ∀ (cfg : Config), cfg.mask = true → cfg.maskShape = "circle" →
      0 < cfg.width → 0 < cfg.height →
      (∀ v : ℝ, 0 ≤ v → v ≤ 1 → 0 ≤ cfg.maskContrast →
        ∀ x1 y1 x2 y2 : ℝ,
          Real.sqrt ((x1 - cfg.width/2)^2 + (y1 - cfg.height/2)^2) ≤
            Real.sqrt ((x2 - cfg.width/2)^2 + (y2 - cfg.height/2)^2) →
          applyMask cfg x2 y2 v ≤ applyMask cfg x1 y1 v) ∧
      (∀ v x y : ℝ,
        Real.sqrt ((cfg.width/2)^2 + (cfg.height/2)^2) ≤
          Real.sqrt ((x - cfg.width/2)^2 + (y - cfg.height/2)^2) →
        applyMask cfg x y v = 0) := by
  intro cfg hm hs hw hh
  have hmg : 0 < Real.sqrt ((cfg.width/2)^2 + (cfg.height/2)^2) := by
    apply Real.sqrt_pos.mpr
    have h1 : 0 < (cfg.width/2)^2 := pow_pos (by linarith) 2
    nlinarith [sq_nonneg (cfg.height/2)]
  constructor
  · intro v hv0 hv1 hc x1 y1 x2 y2 hd
    rw [applyMask_circle cfg x2 y2 v hm hs, applyMask_circle cfg x1 y1 v hm hs]
    apply maskStep_mono hv0 hc
    rw [circleGrad_eq, circleGrad_eq]
    have hdd : Real.sqrt ((x1 - cfg.width/2)^2 + (y1 - cfg.height/2)^2) /
        Real.sqrt ((cfg.width/2)^2 + (cfg.height/2)^2) ≤
        Real.sqrt ((x2 - cfg.width/2)^2 + (y2 - cfg.height/2)^2) /
        Real.sqrt ((cfg.width/2)^2 + (cfg.height/2)^2) := by gcongr
    linarith
  · intro v x y hd
    rw [applyMask_circle cfg x y v hm hs]
    apply maskStep_of_nonpos
    rw [circleGrad_eq]
    have h1 : (1:ℝ) ≤ Real.sqrt ((x - cfg.width/2)^2 + (y - cfg.height/2)^2) /
        Real.sqrt ((cfg.width/2)^2 + (cfg.height/2)^2) := (one_le_div hmg).mpr hd
    exact not_lt.mpr (by linarith)

/-- Witness for C6: on a 2 by 2 canvas the pixel (3,1), at distance 2
from the center, is at least the half-diagonal sqrt 2 away, and is masked
to 0. -/
theorem C6_circle_mask_witness : applyMask cfgC6 3 1 (1/2) = 0 := by
  apply (C6_circle_mask cfgC6 rfl rfl (by norm_num [cfgC6, baseCfg])
    (by norm_num [cfgC6, baseCfg])).2 (1/2) 3 1
  have e1 : ((cfgC6.width:ℝ)/2)^2 + ((cfgC6.height:ℝ)/2)^2 = 2 := by
    norm_num [cfgC6, baseCfg]
  have e2 : ((3:ℝ) - cfgC6.width/2)^2 + ((1:ℝ) - cfgC6.height/2)^2 = 4 := by
    norm_num [cfgC6, baseCfg]
  rw [e1, e2]
  exact Real.sqrt_le_sqrt (by norm_num)

/-- C7: with the mask disabled, applyMask is the identity; with the mask
enabled and a positive pre-contrast product `value*g`, the circle branch
multiplies the product by the contrast while the square and hexagon
branches multiply it by contrast*0.75, before clamping to [0,1]. -/
theorem C7_mask_contrast :
    ∀ (cfg : Config) (x y v : ℝ),
      (cfg.mask = false → applyMask cfg x y v = v) ∧
      (cfg.mask = true → cfg.maskShape = "circle" → 0 ≤ v →
        0 < v * circleGrad cfg x y →
        applyMask cfg x y v =
          max 0 (min 1 (v * circleGrad cfg x y * cfg.maskContrast))) ∧
      (cfg.mask = true → cfg.maskShape = "square" → 0 ≤ v →
        0 < v * squareGrad cfg x y →
        applyMask cfg x y v =
          max 0 (min 1 (v * squareGrad cfg x y * (cfg.maskContrast * 0.75)))) ∧
      (cfg.mask = true → cfg.maskShape = "hexagon" → 0 ≤ v →
        0 < v * hexGrad cfg x y →
        applyMask cfg x y v =
          max 0 (min 1 (v * hexGrad cfg x y * (cfg.maskContrast * 0.75)))) := by
  intro cfg x y v
  refine ⟨fun h => applyMask_disabled cfg x y v h,
    fun hm hs hv hp => ?_, fun hm hs hv hp => ?_, fun hm hs hv hp => ?_⟩
  · rw [applyMask_circle cfg x y v hm hs]
    exact maskStep_of_pos_prod v _ hv hp
  · rw [applyMask_square cfg x y v hm hs]
    exact maskStep_of_pos_prod v _ hv hp
  · rw [applyMask_hexagon cfg x y v hm hs]
    exact maskStep_of_pos_prod v _ hv hp

/-- Witness for C7 at the center pixel of a 2 by 2 canvas, where every
gradient is 1, plus the disabled-mask identity at an arbitrary point. -/
theorem C7_mask_contrast_witness :
    applyMask cfgC7off 0 0 (3/7) = 3/7 ∧
    applyMask cfgC6 1 1 (1/2) =
      max 0 (min 1 ((1/2) * circleGrad cfgC6 1 1 * cfgC6.maskContrast)) ∧
    applyMask cfgC7s 1 1 (1/2) =
      max 0 (min 1 ((1/2) * squareGrad cfgC7s 1 1 * (cfgC7s.maskContrast * 0.75))) ∧
    applyMask cfgC7h 1 1 (1/2) =
      max 0 (min 1 ((1/2) * hexGrad cfgC7h 1 1 * (cfgC7h.maskContrast * 0.75))) := by
  have hcg : circleGrad cfgC6 1 1 = 1 := by
    rw [circleGrad_eq]
    norm_num [cfgC6, baseCfg, Real.sqrt_zero]
  have hsg : squareGrad cfgC7s 1 1 = 1 := by
    simp only [squareGrad]
    norm_num [cfgC7s, cfgC6, baseCfg]
  have hhg : hexGrad cfgC7h 1 1 = 1 := by
    simp only [hexGrad]
    norm_num [cfgC7h, cfgC6, baseCfg]
  refine ⟨(C7_mask_contrast cfgC7off 0 0 (3/7)).1 rfl,
    (C7_mask_contrast cfgC6 1 1 (1/2)).2.1 rfl rfl (by norm_num)
      (by rw [hcg]; norm_num),
    (C7_mask_contrast cfgC7s 1 1 (1/2)).2.2.1 rfl rfl (by norm_num)
      (by rw [hsg]; norm_num),
    (C7_mask_contrast cfgC7h 1 1 (1/2)).2.2.2 rfl rfl (by norm_num)
      (by rw [hhg]; norm_num)⟩

/-- C2: evaluation of the shading pass at the failing input (pixel (0,0),
scale 1, seed 0, one octave, grayscale, animation time 1/2).  The main
sample is taken at noise point (0, 0 + time) = (0, 1/2), but the offset
sample of the shading pass is taken at (0.01, 0.01): the code does not
add `config.time` to the offset sample, so the shade compares the current
field against the time-0 field, while the spec asks for the same time
offset (which would be the point (0.01, 0.51) here).  The shade times 100
is added to each channel and clamped to [0,255], and the offset sample is
drawn from the raw, un-masked fractal field - those two parts of the
claim hold. -/
theorem C2_shading_offset_drops_time :
    cfgC2.time = 1/2 ∧ (0.01 : ℝ) + cfgC2.time ≠ 0.01 ∧
    drawPixel cfgC2 0 0 =
      RGB.mk
        (min 255 (max 0 ((perlin false 0 (1/2) 0 + 1) / 2 * 255 +
          ((perlin false 0 (1/2) 0 + 1) / 2 - (perlin false 0.01 0.01 0 + 1) / 2) * 100)))
        (min 255 (max 0 ((perlin false 0 (1/2) 0 + 1) / 2 * 255 +
          ((perlin false 0 (1/2) 0 + 1) / 2 - (perlin false 0.01 0.01 0 + 1) / 2) * 100)))
        (min 255 (max 0 ((perlin false 0 (1/2) 0 + 1) / 2 * 255 +
          ((perlin false 0 (1/2) 0 + 1) / 2 - (perlin false 0.01 0.01 0 + 1) / 2) * 100))) := by
  refine ⟨rfl, by norm_num [cfgC2, baseCfg], ?_⟩
  have hval : drawPixelValue cfgC2 0 0 = (perlin false 0 (1/2) 0 + 1) / 2 := by
    rw [drawPixelValue, applyMask_disabled cfgC2 0 0 _ rfl]
    norm_num [cfgC2, baseCfg]
  rw [drawPixel]
  simp only [hval, show cfgC2.grayscale = true from rfl,
    show cfgC2.shading = true from rfl, if_true]
  norm_num [cfgC2, baseCfg]

/-- C10: single-octave noise vanishes at every integer lattice point: the
fractional offset is 0, the faded weight fade(0) is 0, and the selected
dot product at the selected corner is taken against the zero
displacement vector. -/
theorem C10_lattice_zero :
    ∀ (ix iy : ℤ) (seed : ℝ),
      rawPerlin (ix : ℝ) (iy : ℝ) seed = 0 ∧
      fade ((ix : ℝ) - ⌊(ix : ℝ)⌋) = 0 ∧
      dotGridGradient (ix : ℝ) (iy : ℝ) (ix : ℝ) (iy : ℝ) seed = 0 := by
  intro ix iy seed
  refine ⟨?_, ?_, ?_⟩
  · simp [rawPerlin, dotGridGradient, lerp, fade, Int.floor_intCast, sub_self]
  · simp [fade, Int.floor_intCast, sub_self]
  · simp [dotGridGradient, sub_self]

end IslandGen
